import Mathlib

set_option autoImplicit false

namespace TypeormZod

/-!
Shallow embedding of the typeorm-zod metadata store and schema-variant
derivation engine.

Sources embedded here:
* `src/src/metadata-store.ts` — the WeakMap-backed rule store
  (`getMetadata`, `setMetadata`, `addMetadata`, `hasPropertyMetadata`).
* `src/src/decorators/zod-property.ts` — the `ZodProperty` decorator with
  its duplicate-registration check.
* `src/unnamed/part_001` — `getAllMetadata` (prototype-chain walk with
  descendant-wins dedup), `filterMetadataForSchema`,
  `createZodFromEntityForVariant` and `createEntitySchemas`.

The opaque validator objects (the `zod` v3 library, an external dependency
of the repository) are modelled by a small first-order language
(`ZodSchema`) covering exactly the constructors the repository and its
tests exercise: base validators, `.optional()`, `.nullable()`,
`.default(v)`, plus the object-level `.partial()` and `.required(mask)`
transforms and strip-mode object parsing.  The semantics follow zod v3 as
pinned by the repository's own test suite (`tests/skip-functionality.test.ts`):
`.partial()` wraps every field in a fresh optional wrapper, and
`.required(mask)` walks only the keys present in the shape, stripping
optional wrappers from masked keys and silently ignoring mask keys that do
not occur in the shape.

JavaScript arrays are modelled at two levels: a value-level store
(`MetadataStore`) for content claims, and an explicit heap
(`HeapState`) for the claims about aliasing and in-place mutation of the
backing arrays, since `metadata-store.ts` returns the stored array itself
from `getMetadata`.
-/

/-- The five schema variant names (`src/src/decorators/metadata.ts`). -/
inductive SchemaVariant where
  | create
  | update
  | patch
  | query
  | full
deriving DecidableEq

/-- JavaScript runtime values, as far as the embedded validators inspect them. -/
inductive JsValue where
  | vstr (s : String)
  | vnum (n : Int)
  | vdate
  | vbool (b : Bool)
  | vnull
  | vundefined
deriving DecidableEq

/-- Hexadecimal digit test used by the uuid format check. -/
def isHexDigit (c : Char) : Bool :=
  c.isDigit || ('a' ≤ c && c ≤ 'f') || ('A' ≤ c && c ≤ 'F')

/-- Canonical 8-4-4-4-12 uuid string format. -/
def isUuidString (s : String) : Bool :=
  let cs := s.toList
  cs.length = 36 &&
    (List.range 36).all (fun i =>
      let c := cs.getD i ' '
      if i = 8 || i = 13 || i = 18 || i = 23 then c = '-' else isHexDigit c)

/-- Base (unwrapped) zod validators used by the repository's entities and tests:
`z.string().min(a).max(b)`, `z.string().uuid()`, `z.number().int().min(n)`,
`z.number()`, `z.date()`. -/
inductive ZodBase where
  | zstring (minLen : Option Nat) (maxLen : Option Nat)
  | zuuid
  | zint (minVal : Option Int)
  | znumber
  | zdate
deriving DecidableEq

/-- Parse of a base validator: rejects `undefined` and `null`, checks the
value's type and the declared bounds. -/
def checkBase : ZodBase → JsValue → Bool
  | .zstring lo hi, .vstr s =>
      (match lo with | some n => decide (n ≤ s.length) | none => true) &&
      (match hi with | some n => decide (s.length ≤ n) | none => true)
  | .zuuid, .vstr s => isUuidString s
  | .zint lo, .vnum n => (match lo with | some m => decide (m ≤ n) | none => true)
  | .znumber, .vnum _ => true
  | .zdate, .vdate => true
  | _, _ => false

/-- Composable validators: a base validator possibly wrapped by
`ZodOptional`, `ZodNullable` and `ZodDefault` layers (zod v3 wrapper
classes). -/
inductive ZodSchema where
  | base (b : ZodBase)
  | optional (inner : ZodSchema)
  | nullable (inner : ZodSchema)
  | withDefault (inner : ZodSchema) (dflt : JsValue)
deriving DecidableEq

/-- Field-level parse (zod v3): `ZodOptional` accepts `undefined`,
`ZodNullable` accepts `null`, `ZodDefault` substitutes the default for
`undefined` and parses it through the inner validator. -/
def zparse : ZodSchema → JsValue → Bool
  | .base b, v => checkBase b v
  | .optional s, v => if v = JsValue.vundefined then true else zparse s v
  | .nullable s, v => if v = JsValue.vnull then true else zparse s v
  | .withDefault s d, v => if v = JsValue.vundefined then zparse s d else zparse s v

/-- `instanceof z.ZodOptional`: true only for an outermost optional wrapper. -/
def isZodOptional : ZodSchema → Bool
  | .optional _ => true
  | _ => false

/-- `instanceof z.ZodNullable`: true only for an outermost nullable wrapper. -/
def isZodNullable : ZodSchema → Bool
  | .nullable _ => true
  | _ => false

/-- `instanceof z.ZodDefault`: true only for an outermost default wrapper. -/
def isZodDefault : ZodSchema → Bool
  | .withDefault _ _ => true
  | _ => false

/-- TypeORM column options, inspected only for the two flags the generator
reads (`src/unnamed/part_001`, lines 131–144). -/
structure ColumnOptions where
  nullable : Bool
  defaultValue : Option JsValue
deriving DecidableEq

/-- One stored field rule (`ZodValidationMetadata` in
`src/src/decorators/metadata.ts`). -/
structure ZodValidationMetadata where
  propertyKey : String
  zodSchema : ZodSchema
  columnOptions : Option ColumnOptions
  skip : Option (List SchemaVariant)
deriving DecidableEq

/-! ### The value-level rule store (`src/src/metadata-store.ts`)

The WeakMap keyed by constructor identity is modelled as an association
list from a numeric class identity to the stored rule list. -/

abbrev MetadataStore := List (Nat × List ZodValidationMetadata)

/-- `getMetadata`: `metadataStore.get(constructorFunc) || []`. -/
def getMetadataOf (store : MetadataStore) (cid : Nat) : List ZodValidationMetadata :=
  match store.find? (fun e => e.1 == cid) with
  | some e => e.2
  | none => []

/-- `setMetadata`: `metadataStore.set(constructorFunc, metadata)` —
replaces the entry when the key is present, adds it otherwise. -/
def setMetadataOf (store : MetadataStore) (cid : Nat)
    (metadata : List ZodValidationMetadata) : MetadataStore :=
  if store.any (fun e => e.1 == cid) then
    store.map (fun e => if e.1 == cid then (cid, metadata) else e)
  else store ++ [(cid, metadata)]

/-- `addMetadata`: copy-on-write append, `setMetadata(c, [...existing, item])`. -/
def addMetadataOf (store : MetadataStore) (cid : Nat)
    (item : ZodValidationMetadata) : MetadataStore :=
  setMetadataOf store cid (getMetadataOf store cid ++ [item])

/-- `hasPropertyMetadata`: does the type's own list hold a rule for the key. -/
def hasPropertyMetadata (store : MetadataStore) (cid : Nat) (propertyKey : String) : Bool :=
  (getMetadataOf store cid).any (fun m => m.propertyKey == propertyKey)

/-! ### Constructor functions and the prototype chain

A user-defined class is identified by a numeric identity plus a name and
its prototype.  For a base class (`class A {}`) the prototype is
`Function.prototype`, whose own prototype is `Object.prototype`, whose
prototype is `null`.  The loop in `getAllMetadata` collects the current
object's metadata, then advances to the prototype and stops on `null` (or
the `Object`/`Function` constructors, which never occur as prototypes of
ordinary classes); `Function.prototype` and `Object.prototype` are visited
but, not being decorated user classes, contribute no metadata. -/

inductive ProtoObj where
  | userClass (id : Nat) (name : String) (proto : ProtoObj)
  | functionPrototype
  | objectPrototype
deriving DecidableEq

/-- `entityClass.name`. -/
def className : ProtoObj → String
  | .userClass _ n _ => n
  | .functionPrototype => ""
  | .objectPrototype => ""

/-- The store identity of a constructor function (roots are never store keys). -/
def classId : ProtoObj → Option Nat
  | .userClass i _ _ => some i
  | _ => none

/-- Own metadata of one chain object: the store lookup for user classes,
empty for the universal roots. -/
def ownMeta (store : MetadataStore) : ProtoObj → List ZodValidationMetadata
  | .userClass i _ _ => getMetadataOf store i
  | _ => []

/-- The sequence of objects visited by the while-loop of `getAllMetadata`
(`src/unnamed/part_001`, lines 50–75). -/
def visitChain : ProtoObj → List ProtoObj
  | .userClass i n p => .userClass i n p :: visitChain p
  | .functionPrototype => [.functionPrototype, .objectPrototype]
  | .objectPrototype => [.objectPrototype]

/-- Identities of the user classes in a chain. -/
def chainIds (c : ProtoObj) : List Nat :=
  (visitChain c).filterMap classId

/-- The body of the `metadata.forEach` in `getAllMetadata`: append each item
whose key was not yet seen, and mark its key seen.  (The JS code pushes a
fresh object with the same four fields, which is the same value.) -/
def collectMeta : List ZodValidationMetadata →
    List ZodValidationMetadata × List String →
    List ZodValidationMetadata × List String
  | [], acc => acc
  | m :: rest, (acc, seen) =>
    if m.propertyKey ∈ seen then collectMeta rest (acc, seen)
    else collectMeta rest (acc ++ [m], seen ++ [m.propertyKey])

/-- `getAllMetadata`: walk the prototype chain, collecting unseen field
rules in order (descendant first). -/
def getAllMetadata (store : MetadataStore) (entityClass : ProtoObj) :
    List ZodValidationMetadata :=
  ((visitChain entityClass).foldl
    (fun acc p => collectMeta (ownMeta store p) acc) ([], [])).1

/-! ### Variant filtering and shape construction (`src/unnamed/part_001`) -/

/-- `filterMetadataForSchema`: drop a field if its per-field skip list holds
the target variant; otherwise drop it if its name is globally omitted. -/
def filterMetadataForSchema (metadata : List ZodValidationMetadata)
    (schemaVariant : SchemaVariant) (globalOmitFields : List String) :
    List ZodValidationMetadata :=
  metadata.filter (fun m =>
    if schemaVariant ∈ m.skip.getD [] then false
    else ! decide (m.propertyKey ∈ globalOmitFields))

/-- A per-call transform table (`options.transforms`). -/
abbrev TransformMap := List (String × (ZodSchema → ZodSchema))

/-- `SchemaGenerationOptions` from `src/unnamed/part_001`. -/
structure SchemaGenerationOptions where
  omitFromCreate : List String
  omitFromUpdate : List String
  transforms : TransformMap

/-- Options with every member absent. -/
def noOpts : SchemaGenerationOptions := ⟨[], [], []⟩

/-- `options.transforms?.[propertyKey]`. -/
def lookupTransform (ts : TransformMap) (k : String) : Option (ZodSchema → ZodSchema) :=
  match ts.find? (fun e => e.1 == k) with
  | some e => some e.2
  | none => none

/-- The per-field body of the `filteredMetadata.forEach` in
`createZodFromEntityForVariant` (lines 122–148): apply the custom
transform, then the column-driven nullable wrap (tested against the
original `zodSchema`), then the column default (again tested against the
original `zodSchema`). -/
def finalizeField (options : SchemaGenerationOptions)
    (m : ZodValidationMetadata) : ZodSchema :=
  let s1 := match lookupTransform options.transforms m.propertyKey with
            | some t => t m.zodSchema
            | none => m.zodSchema
  match m.columnOptions with
  | none => s1
  | some co =>
    let s2 := if co.nullable && !isZodOptional m.zodSchema && !isZodNullable m.zodSchema
              then ZodSchema.nullable s1 else s1
    match co.defaultValue with
    | some d => if !isZodDefault m.zodSchema then ZodSchema.withDefault s2 d else s2
    | none => s2

/-- An object shape: ordered fields of a `z.object`. -/
abbrev ZodShape := List (String × ZodSchema)

/-- `shape[propertyKey] = finalSchema`: JS object assignment updates an
existing key in place (keeping its position) and appends a new key. -/
def setShapeKey (shape : ZodShape) (k : String) (v : ZodSchema) : ZodShape :=
  if shape.any (fun e => e.1 == k) then
    shape.map (fun e => if e.1 == k then (k, v) else e)
  else shape ++ [(k, v)]

/-- A `z.object(shape)` value. -/
structure ZodObjectSchema where
  shape : ZodShape
deriving DecidableEq

/-- The configuration-error message of `createZodFromEntityForVariant`. -/
def noMetadataMsg (entityName : String) : String :=
  "No Zod validation metadata found for entity " ++ entityName ++
  ". Make sure to use @ZodProperty or @ZodColumn decorators on entity properties."

/-- `createZodFromEntityForVariant` (lines 102–151): error when the merged
rule set is empty, else filter and build the object shape. -/
def createZodFromEntityForVariant (store : MetadataStore) (entityClass : ProtoObj)
    (schemaVariant : SchemaVariant) (options : SchemaGenerationOptions)
    (globalOmitFields : List String) : Except String ZodObjectSchema :=
  let allMetadata := getAllMetadata store entityClass
  if allMetadata.length = 0 then
    .error (noMetadataMsg (className entityClass))
  else
    let filteredMetadata := filterMetadataForSchema allMetadata schemaVariant globalOmitFields
    .ok ⟨filteredMetadata.foldl
      (fun sh m => setShapeKey sh m.propertyKey (finalizeField options m)) []⟩

/-- `createZodFromEntity`: the `full` variant with no global omissions. -/
def createZodFromEntity (store : MetadataStore) (entityClass : ProtoObj)
    (options : SchemaGenerationOptions) : Except String ZodObjectSchema :=
  createZodFromEntityForVariant store entityClass .full options []

/-- zod v3 `.partial()` without mask: wrap every field in a fresh
`ZodOptional`, unconditionally. -/
def shapeAllOptional (o : ZodObjectSchema) : ZodObjectSchema :=
  ⟨o.shape.map (fun e => (e.1, ZodSchema.optional e.2))⟩

/-- The unwrap loop of zod v3 `.required`: strip every outer optional layer. -/
def stripOptional : ZodSchema → ZodSchema
  | .optional s => stripOptional s
  | s => s

/-- zod v3 `.required(mask)`: walk the shape's own keys; strip optional
wrappers from keys in the mask, keep the rest unchanged.  Mask keys absent
from the shape are silently ignored. -/
def shapeRequireKeys (o : ZodObjectSchema) (mask : List String) : ZodObjectSchema :=
  ⟨o.shape.map (fun e => if e.1 ∈ mask then (e.1, stripOptional e.2) else e)⟩

/-- The five-variant collection (`EntitySchemas`). -/
structure EntitySchemas where
  full : ZodObjectSchema
  create : ZodObjectSchema
  update : ZodObjectSchema
  patch : ZodObjectSchema
  query : ZodObjectSchema
deriving DecidableEq

/-- The fixed default omission list of the `create` variant. -/
def defaultCreateOmit : List String := ["id", "createdAt", "updatedAt", "deletedAt"]

/-- `createEntitySchemas` (lines 167–196): derive the five variants; the
`update` variant is post-processed with `.partial().required({ id: true })`,
`patch` and `query` with `.partial()`.  The five variant calls share the
same emptiness check, so the first failing call's error propagates. -/
def createEntitySchemas (store : MetadataStore) (entityClass : ProtoObj)
    (options : SchemaGenerationOptions) : Except String EntitySchemas :=
  let createOmitFields := defaultCreateOmit ++ options.omitFromCreate
  let updateOmitFields := options.omitFromUpdate
  match createZodFromEntityForVariant store entityClass .full options [],
        createZodFromEntityForVariant store entityClass .create options createOmitFields,
        createZodFromEntityForVariant store entityClass .update options updateOmitFields,
        createZodFromEntityForVariant store entityClass .patch options [],
        createZodFromEntityForVariant store entityClass .query options [] with
  | .ok f, .ok c, .ok u, .ok p, .ok q =>
      .ok ⟨f, c, shapeRequireKeys (shapeAllOptional u) ["id"],
           shapeAllOptional p, shapeAllOptional q⟩
  | .error e, _, _, _, _ => .error e
  | _, .error e, _, _, _ => .error e
  | _, _, .error e, _, _ => .error e
  | _, _, _, .error e, _ => .error e
  | _, _, _, _, .error e => .error e

/-! ### Object parsing (zod v3 strip mode) -/

/-- Property access on a parsed input object; missing keys read as `undefined`. -/
def objGet (obj : List (String × JsValue)) (k : String) : JsValue :=
  match obj.find? (fun e => e.1 == k) with
  | some e => e.2
  | none => .vundefined

/-- Strip-mode object parse: every declared field must parse (missing keys
parse as `undefined`); unknown input keys are stripped, never an error. -/
def zparseShape (shape : ZodShape) (obj : List (String × JsValue)) : Bool :=
  shape.all (fun e => zparse e.2 (objGet obj e.1))

/-- Parse against a `z.object` value. -/
def zparseObject (o : ZodObjectSchema) (obj : List (String × JsValue)) : Bool :=
  zparseShape o.shape obj

/-! ### The `ZodProperty` decorator (`src/src/decorators/zod-property.ts`)

The model receives a well-formed `ZodSchema`, so the runtime duck-typing
check `isValidZodSchema` always passes and the legacy and object syntaxes
coincide; the duplicate check runs before either. -/

/-- The duplicate-registration error message, naming the field and the type. -/
def duplicateMsg (propertyKey : String) (entityName : String) : String :=
  "Duplicate @ZodProperty decorator detected for property \"" ++ propertyKey ++
  "\" in entity " ++ entityName ++
  ". Multiple decorators on the same property are not supported. " ++
  "Please use only one decorator per property."

/-- `ZodProperty` applied to one property: reject a duplicate key for the
same constructor, otherwise register the rule (with no column options,
which `ZodProperty` never sets). -/
def zodPropertyDecorate (store : MetadataStore) (cid : Nat) (entityName : String)
    (propertyKey : String) (schema : ZodSchema) (skip : Option (List SchemaVariant)) :
    Except String MetadataStore :=
  if hasPropertyMetadata store cid propertyKey then
    .error (duplicateMsg propertyKey entityName)
  else
    .ok (addMetadataOf store cid ⟨propertyKey, schema, none, skip⟩)

/-- The store visible to the caller after a decorator call: the new store on
success, the unchanged input store when the decorator threw. -/
def storeAfter (r : Except String MetadataStore) (store : MetadataStore) : MetadataStore :=
  match r with
  | .ok s => s
  | .error _ => store

/-! ### The heap model of the store

`getMetadata` returns `metadataStore.get(c) || []` — the stored array
itself when present, a fresh empty array otherwise.  To reason about
aliasing and in-place mutation, arrays live in an explicit heap of cells
and the store maps class identities to cell addresses. -/

structure HeapState where
  heap : List (List ZodValidationMetadata)
  entries : List (Nat × Nat)
deriving DecidableEq

/-- Address lookup in the entries map. -/
def lookupEntry (entries : List (Nat × Nat)) (cid : Nat) : Option Nat :=
  match entries.find? (fun e => e.1 == cid) with
  | some e => some e.2
  | none => none

/-- Contents of a heap cell. -/
def readCell (st : HeapState) (addr : Nat) : List ZodValidationMetadata :=
  st.heap.getD addr []

/-- Allocate a fresh array. -/
def allocCell (st : HeapState) (l : List ZodValidationMetadata) : Nat × HeapState :=
  (st.heap.length, ⟨st.heap ++ [l], st.entries⟩)

/-- `WeakMap.set` on the entries map. -/
def setEntry (entries : List (Nat × Nat)) (cid addr : Nat) : List (Nat × Nat) :=
  if entries.any (fun e => e.1 == cid) then
    entries.map (fun e => if e.1 == cid then (cid, addr) else e)
  else entries ++ [(cid, addr)]

/-- `getMetadata` at the heap level: the live stored array when the key is
present, else a freshly allocated empty array (`|| []`). -/
def getMetadataRef (st : HeapState) (cid : Nat) : Nat × HeapState :=
  match lookupEntry st.entries cid with
  | some a => (a, st)
  | none => allocCell st []

/-- `setMetadata` at the heap level. -/
def setMetadataRef (st : HeapState) (cid addr : Nat) : HeapState :=
  ⟨st.heap, setEntry st.entries cid addr⟩

/-- `addMetadata` at the heap level: read the current array, allocate
`[...existing, item]` as a new array, store its address. -/
def addMetadataRef (st : HeapState) (cid : Nat) (item : ZodValidationMetadata) : HeapState :=
  let g := getMetadataRef st cid
  let a := allocCell g.2 (readCell g.2 g.1 ++ [item])
  setMetadataRef a.2 cid a.1

/-- A caller mutating a returned array in place (`array.push(item)`). -/
def pushCell (st : HeapState) (addr : Nat) (item : ZodValidationMetadata) : HeapState :=
  ⟨st.heap.set addr (st.heap.getD addr [] ++ [item]), st.entries⟩

/-- The process-start heap. -/
def emptyHeap : HeapState := ⟨[], []⟩

/-! ### Specification-side helpers

`dedupKeys` is the first-occurrence-per-key filter; `getAllMetadata` is
proved below to equal it applied to the concatenation of the chain's own
rule lists, which makes the override-wins reasoning transparent. -/

/-- Keep the first rule for each key not already seen. -/
def dedupKeys (seen : List String) : List ZodValidationMetadata → List ZodValidationMetadata
  | [] => []
  | m :: rest =>
    if m.propertyKey ∈ seen then dedupKeys seen rest
    else m :: dedupKeys (m.propertyKey :: seen) rest

/-- The chain's own rule lists, concatenated in visit order. -/
def chainConcat (store : MetadataStore) (c : ProtoObj) : List ZodValidationMetadata :=
  ((visitChain c).map (ownMeta store)).flatten

/-- First rule with the given key. -/
def findByKey (k : String) (l : List ZodValidationMetadata) : Option ZodValidationMetadata :=
  l.find? (fun m => m.propertyKey == k)

/-! ### Concrete fixtures (the `TestEntityWithSkip` entity of
`tests/helpers/entities`, registered on class identity 0) -/

/-- A rule with no column options. -/
def metaOf (k : String) (s : ZodSchema) (sk : Option (List SchemaVariant)) :
    ZodValidationMetadata :=
  ⟨k, s, none, sk⟩

/-- The store after decorating `TestEntityWithSkip`. -/
def testStore : MetadataStore :=
  [(0, [ metaOf "id" (.base .zuuid) (some [.create, .update]),
         metaOf "title" (.base (.zstring (some 1) (some 255))) none,
         metaOf "content" (.base (.zstring none none)) none,
         metaOf "version" (.base (.zint (some 0))) (some [.create, .update, .patch]),
         metaOf "createdAt" (.base .zdate) (some [.create]),
         metaOf "updatedAt" (.base .zdate) (some [.create]),
         metaOf "deletedAt" (.nullable (.base .zdate)) (some [.create, .update]),
         metaOf "secretToken" (.optional (.base (.zstring none none))) (some [.query]) ])]

/-- The `TestEntityWithSkip` class itself. -/
def testClass : ProtoObj := .userClass 0 "TestEntityWithSkip" .functionPrototype

/-- A store where a child class overrides `title` of `TestEntityWithSkip`. -/
def childStore : MetadataStore :=
  testStore ++ [(1, [metaOf "title" (.base (.zstring (some 5) none)) none])]

/-- The child class extending `TestEntityWithSkip`. -/
def childClass : ProtoObj := .userClass 1 "ChildEntity" testClass

/-- The schema collection generated for `TestEntityWithSkip` (for use in
concrete witnesses; extracted from the generation result). -/
def testSchemas : EntitySchemas :=
  (createEntitySchemas testStore testClass noOpts).toOption.getD ⟨⟨[]⟩, ⟨[]⟩, ⟨[]⟩, ⟨[]⟩, ⟨[]⟩⟩

/-- The `update` shape `createEntitySchemas` is proved to produce: the
update-filtered merged rules, the `id` field with optional wrappers
stripped and every other field wrapped optional. -/
def expectedUpdateShape (store : MetadataStore) (c : ProtoObj)
    (options : SchemaGenerationOptions) : ZodShape :=
  (filterMetadataForSchema (getAllMetadata store c) .update options.omitFromUpdate).map
    (fun m => (m.propertyKey,
      if m.propertyKey = "id" then stripOptional (finalizeField options m)
      else ZodSchema.optional (finalizeField options m)))

/-- The object shape one variant call builds from the filtered merged rules
(the `forEach` fold in `createZodFromEntityForVariant`); named so theorems
can state what the successful generation returns. -/
def buildShape (store : MetadataStore) (c : ProtoObj) (v : SchemaVariant)
    (options : SchemaGenerationOptions) (globalOmitFields : List String) : ZodObjectSchema :=
  ⟨(filterMetadataForSchema (getAllMetadata store c) v globalOmitFields).foldl
    (fun sh m => setShapeKey sh m.propertyKey (finalizeField options m)) []⟩

/-- Heap state after registering one `title` rule for class 0. -/
def c5Stored : HeapState :=
  addMetadataRef emptyHeap 0 (metaOf "title" (.base (.zstring none none)) none)

/-- Heap state after a caller pushes a junk rule onto the array returned by
`getMetadata` for class 0. -/
def c5Mutated : HeapState :=
  pushCell (getMetadataRef c5Stored 0).2 (getMetadataRef c5Stored 0).1
    (metaOf "junk" (.base .znumber) none)

/-- Two unrelated base classes declaring the same field name `x`. -/
def classA : ProtoObj := .userClass 0 "A" .functionPrototype

/-- The second of the two unrelated classes. -/
def classB : ProtoObj := .userClass 1 "B" .functionPrototype

/-- The rule registered for `x` on class `A`. -/
def ruleAx : ZodValidationMetadata := metaOf "x" (.base .znumber) none

/-- The rule registered for `x` on class `B`. -/
def ruleBx : ZodValidationMetadata := metaOf "x" (.base (.zstring none none)) none

/-! ## Lemmas about the merged-rule-set computation -/

theorem collectMeta_append (l1 l2 : List ZodValidationMetadata) :
    ∀ acc, collectMeta (l1 ++ l2) acc = collectMeta l2 (collectMeta l1 acc) := by
  induction l1 with
  | nil => intro acc; rfl
  | cons m rest ih =>
    intro acc
    obtain ⟨a, seen⟩ := acc
    by_cases hm : m.propertyKey ∈ seen
    · simp only [List.cons_append, collectMeta, if_pos hm, List.append_eq, ih]
    · simp only [List.cons_append, collectMeta, if_neg hm, List.append_eq, ih]

theorem foldl_collectMeta (store : MetadataStore) (ps : List ProtoObj) :
    ∀ acc, ps.foldl (fun a p => collectMeta (ownMeta store p) a) acc
      = collectMeta ((ps.map (ownMeta store)).flatten) acc := by
  induction ps with
  | nil => intro acc; rfl
  | cons p t ih =>
    intro acc
    simp only [List.foldl_cons, List.map_cons, List.flatten_cons, collectMeta_append, ih]

theorem dedupKeys_congr (l : List ZodValidationMetadata) :
    ∀ (s1 s2 : List String), (∀ x, x ∈ s1 ↔ x ∈ s2) → dedupKeys s1 l = dedupKeys s2 l := by
  induction l with
  | nil => intro s1 s2 _; rfl
  | cons m rest ih =>
    intro s1 s2 h
    simp only [dedupKeys]
    by_cases hm : m.propertyKey ∈ s1
    · rw [if_pos hm, if_pos ((h _).mp hm), ih s1 s2 h]
    · rw [if_neg hm, if_neg (fun c => hm ((h _).mpr c))]
      congr 1
      exact ih _ _ (fun x => by simp only [List.mem_cons, h x])

theorem collectMeta_fst (l : List ZodValidationMetadata) :
    ∀ acc seen, (collectMeta l (acc, seen)).1 = acc ++ dedupKeys seen l := by
  induction l with
  | nil => intro acc seen; simp [collectMeta, dedupKeys]
  | cons m rest ih =>
    intro acc seen
    simp only [collectMeta, dedupKeys]
    by_cases hm : m.propertyKey ∈ seen
    · rw [if_pos hm, if_pos hm, ih]
    · rw [if_neg hm, if_neg hm, ih]
      rw [dedupKeys_congr rest (seen ++ [m.propertyKey]) (m.propertyKey :: seen)
        (fun x => by simp [List.mem_append, List.mem_cons, or_comm])]
      simp

theorem getAllMetadata_eq_dedup (store : MetadataStore) (c : ProtoObj) :
    getAllMetadata store c = dedupKeys [] (chainConcat store c) := by
  unfold getAllMetadata chainConcat
  rw [foldl_collectMeta, collectMeta_fst]
  simp

theorem dedupKeys_append (l1 l2 : List ZodValidationMetadata) :
    ∀ seen, dedupKeys seen (l1 ++ l2)
      = dedupKeys seen l1
        ++ dedupKeys (l1.map (fun m => m.propertyKey) ++ seen) l2 := by
  induction l1 with
  | nil => intro seen; simp [dedupKeys]
  | cons m rest ih =>
    intro seen
    simp only [List.cons_append, dedupKeys, List.map_cons, List.append_eq]
    by_cases hm : m.propertyKey ∈ seen
    · rw [if_pos hm, if_pos hm, ih]
      congr 1
      apply dedupKeys_congr
      intro x
      simp only [List.mem_append, List.mem_cons]
      constructor
      · exact fun h => Or.inr h
      · rintro (rfl | h)
        · exact Or.inr hm
        · exact h
    · rw [if_neg hm, if_neg hm, ih (m.propertyKey :: seen)]
      simp only [List.cons_append]
      congr 2
      apply dedupKeys_congr
      intro x
      simp only [List.mem_append, List.mem_cons]
      tauto

theorem findByKey_append (k : String) (l1 l2 : List ZodValidationMetadata) :
    findByKey k (l1 ++ l2)
      = match findByKey k l1 with
        | some r => some r
        | none => findByKey k l2 := by
  induction l1 with
  | nil => simp [findByKey]
  | cons m rest ih =>
    by_cases hm : (m.propertyKey == k) = true
    · simp [findByKey, List.find?, hm]
    · simp only [List.cons_append, findByKey, List.find?] at *
      rw [Bool.not_eq_true] at hm
      rw [hm]
      exact ih

theorem findByKey_eq_none (k : String) (l : List ZodValidationMetadata)
    (h : ∀ m ∈ l, m.propertyKey ≠ k) : findByKey k l = none := by
  induction l with
  | nil => rfl
  | cons m rest ih =>
    have hm : (m.propertyKey == k) = false := by
      simpa using h m (List.mem_cons_self m rest)
    simp only [findByKey, List.find?, hm]
    exact ih (fun m' hm' => h m' (List.mem_cons_of_mem m hm'))

theorem findByKey_dedupKeys (k : String) (l : List ZodValidationMetadata) :
    ∀ seen, findByKey k (dedupKeys seen l)
      = if k ∈ seen then none else findByKey k l := by
  induction l with
  | nil => intro seen; simp [dedupKeys, findByKey]
  | cons m rest ih =>
    intro seen
    simp only [dedupKeys]
    by_cases hm : m.propertyKey ∈ seen
    · rw [if_pos hm, ih]
      by_cases hk : k ∈ seen
      · simp [hk]
      · have hne : (m.propertyKey == k) = false := by
          simp only [beq_eq_false_iff_ne, ne_eq]
          rintro rfl; exact hk hm
        simp [hk, findByKey, List.find?, hne]
    · rw [if_neg hm]
      by_cases hSk : (m.propertyKey == k) = true
      · have hkey : m.propertyKey = k := by simpa using hSk
        have hk : k ∉ seen := hkey ▸ hm
        simp [findByKey, List.find?, hSk, hk]
      · have hne : (m.propertyKey == k) = false := by
          simpa using hSk
        simp only [findByKey, List.find?, hne]
        rw [show List.find? (fun m' => m'.propertyKey == k) (dedupKeys (m.propertyKey :: seen) rest)
            = findByKey k (dedupKeys (m.propertyKey :: seen) rest) from rfl]
        rw [ih]
        have : (k ∈ m.propertyKey :: seen) ↔ k ∈ seen := by
          simp only [List.mem_cons]
          constructor
          · rintro (rfl | h)
            · simp at hne
            · exact h
          · exact Or.inr
        by_cases hk : k ∈ seen
        · simp [hk, this.mpr hk, findByKey]
        · rw [if_neg (fun c => hk (this.mp c)), if_neg hk]
          rfl

theorem dedupKeys_keys (l : List ZodValidationMetadata) :
    ∀ seen, ((dedupKeys seen l).map (fun m => m.propertyKey)).Nodup
      ∧ ∀ m ∈ dedupKeys seen l, m.propertyKey ∉ seen := by
  induction l with
  | nil => intro seen; simp [dedupKeys]
  | cons m rest ih =>
    intro seen
    simp only [dedupKeys]
    by_cases hm : m.propertyKey ∈ seen
    · rw [if_pos hm]; exact ih seen
    · rw [if_neg hm]
      obtain ⟨h1, h2⟩ := ih (m.propertyKey :: seen)
      refine ⟨?_, ?_⟩
      · simp only [List.map_cons, List.nodup_cons]
        refine ⟨?_, h1⟩
        intro hmem
        obtain ⟨m', hm', hkey⟩ := List.mem_map.mp hmem
        exact h2 m' hm' (hkey ▸ List.mem_cons_self _ _)
      · intro m' hm'
        rcases List.mem_cons.mp hm' with rfl | h'
        · exact hm
        · exact fun c => h2 m' h' (List.mem_cons_of_mem _ c)

theorem getAllMetadata_keys_nodup (store : MetadataStore) (c : ProtoObj) :
    ((getAllMetadata store c).map (fun m => m.propertyKey)).Nodup := by
  rw [getAllMetadata_eq_dedup]
  exact (dedupKeys_keys _ _).1

/-! ## Lemmas about the association-list store operations -/

theorem find?_append_match {α : Type} (p : α → Bool) (l1 l2 : List α) :
    (l1 ++ l2).find? p
      = match l1.find? p with
        | some r => some r
        | none => l2.find? p := by
  induction l1 with
  | nil => simp
  | cons a t ih =>
    by_cases ha : p a = true
    · simp [List.find?, ha]
    · rw [Bool.not_eq_true] at ha
      simp only [List.cons_append, List.find?, ha]
      exact ih

theorem find?_map_update_self {β : Type} (cid : Nat) (b : β) :
    ∀ (es : List (Nat × β)), es.any (fun e => e.1 == cid) = true →
      (es.map (fun e => if e.1 == cid then (cid, b) else e)).find? (fun e => e.1 == cid)
        = some (cid, b) := by
  intro es
  induction es with
  | nil => intro h; simp at h
  | cons a t ih =>
    intro h
    by_cases ha : (a.1 == cid) = true
    · simp [List.find?, ha]
    · rw [Bool.not_eq_true] at ha
      simp only [List.any_cons, ha, Bool.false_or] at h
      simp only [List.map_cons, ha, Bool.false_eq_true, if_false, List.find?, ha]
      exact ih h

theorem find?_map_update_ne {β : Type} (cid : Nat) (b : β) (cid' : Nat) (h : cid' ≠ cid) :
    ∀ (es : List (Nat × β)),
      (es.map (fun e => if e.1 == cid then (cid, b) else e)).find? (fun e => e.1 == cid')
        = es.find? (fun e => e.1 == cid') := by
  intro es
  have hcc : (cid == cid') = false := by
    simp only [beq_eq_false_iff_ne, ne_eq]
    exact fun c => h c.symm
  induction es with
  | nil => rfl
  | cons a t ih =>
    by_cases ha : (a.1 == cid) = true
    · have ha' : (a.1 == cid') = false := by
        have : a.1 = cid := by simpa using ha
        simp only [this, hcc]
      simp only [List.map_cons, ha, if_true, List.find?, hcc, ha']
      exact ih
    · rw [Bool.not_eq_true] at ha
      simp only [List.map_cons, ha, Bool.false_eq_true, if_false, List.find?]
      by_cases ha' : (a.1 == cid') = true
      · simp [ha']
      · rw [Bool.not_eq_true] at ha'
        simp only [ha']
        exact ih

theorem getMetadataOf_set_self (store : MetadataStore) (cid : Nat)
    (l : List ZodValidationMetadata) :
    getMetadataOf (setMetadataOf store cid l) cid = l := by
  unfold setMetadataOf getMetadataOf
  by_cases hany : store.any (fun e => e.1 == cid) = true
  · rw [if_pos hany, find?_map_update_self cid l store hany]
  · rw [if_neg hany, find?_append_match]
    have hnone : store.find? (fun e => e.1 == cid) = none := by
      rw [List.find?_eq_none]
      intro x hx hpx
      exact hany (List.any_eq_true.mpr ⟨x, hx, hpx⟩)
    simp [hnone, List.find?]

theorem getMetadataOf_set_ne (store : MetadataStore) (cid : Nat)
    (l : List ZodValidationMetadata) (cid' : Nat) (h : cid' ≠ cid) :
    getMetadataOf (setMetadataOf store cid l) cid' = getMetadataOf store cid' := by
  unfold setMetadataOf getMetadataOf
  have hcc : (cid == cid') = false := by
    simp only [beq_eq_false_iff_ne, ne_eq]
    exact fun c => h c.symm
  by_cases hany : store.any (fun e => e.1 == cid) = true
  · rw [if_pos hany, find?_map_update_ne cid l cid' h store]
  · rw [if_neg hany, find?_append_match]
    cases hf : store.find? (fun e => e.1 == cid') with
    | some r => simp
    | none => simp [List.find?, hcc]

theorem getMetadataOf_add_self (store : MetadataStore) (cid : Nat)
    (item : ZodValidationMetadata) :
    getMetadataOf (addMetadataOf store cid item) cid = getMetadataOf store cid ++ [item] := by
  unfold addMetadataOf
  exact getMetadataOf_set_self store cid _

theorem getMetadataOf_add_ne (store : MetadataStore) (cid : Nat)
    (item : ZodValidationMetadata) (cid' : Nat) (h : cid' ≠ cid) :
    getMetadataOf (addMetadataOf store cid item) cid' = getMetadataOf store cid' := by
  unfold addMetadataOf
  exact getMetadataOf_set_ne store cid _ cid' h

/-! ## Lemmas about the chain concatenation -/

theorem chainConcat_userClass (store : MetadataStore) (i : Nat) (n : String) (p : ProtoObj) :
    chainConcat store (.userClass i n p) = getMetadataOf store i ++ chainConcat store p := by
  simp [chainConcat, visitChain, ownMeta]

theorem chainConcat_functionPrototype (store : MetadataStore) :
    chainConcat store .functionPrototype = [] := by
  simp [chainConcat, visitChain, ownMeta]

theorem chainConcat_objectPrototype (store : MetadataStore) :
    chainConcat store .objectPrototype = [] := by
  simp [chainConcat, visitChain, ownMeta]

theorem chainIds_userClass (i : Nat) (n : String) (p : ProtoObj) :
    chainIds (.userClass i n p) = i :: chainIds p := by
  simp [chainIds, visitChain, classId]

theorem chainConcat_add_notin (store : MetadataStore) (bid : Nat)
    (r : ZodValidationMetadata) (c : ProtoObj) (h : bid ∉ chainIds c) :
    chainConcat (addMetadataOf store bid r) c = chainConcat store c := by
  induction c with
  | userClass i n p ihp =>
    rw [chainIds_userClass] at h
    have hi : i ≠ bid := fun e => h (e ▸ List.mem_cons_self i _)
    rw [chainConcat_userClass, chainConcat_userClass,
      getMetadataOf_add_ne store bid r i hi,
      ihp (fun c' => h (List.mem_cons_of_mem i c'))]
  | functionPrototype => rw [chainConcat_functionPrototype, chainConcat_functionPrototype]
  | objectPrototype => rw [chainConcat_objectPrototype, chainConcat_objectPrototype]

/-! ## Lemmas reducing the generation entry points -/

theorem variant_err (store : MetadataStore) (c : ProtoObj)
    (h : getAllMetadata store c = []) (v : SchemaVariant)
    (options : SchemaGenerationOptions) (omitFields : List String) :
    createZodFromEntityForVariant store c v options omitFields
      = .error (noMetadataMsg (className c)) := by
  simp [createZodFromEntityForVariant, h]

theorem variant_ok (store : MetadataStore) (c : ProtoObj)
    (h : getAllMetadata store c ≠ []) (v : SchemaVariant)
    (options : SchemaGenerationOptions) (omitFields : List String) :
    createZodFromEntityForVariant store c v options omitFields
      = .ok (buildShape store c v options omitFields) := by
  have hlen : ¬ (getAllMetadata store c).length = 0 := by
    simpa [List.length_eq_zero] using h
  simp [createZodFromEntityForVariant, hlen, buildShape]

theorem createEntitySchemas_err (store : MetadataStore) (c : ProtoObj)
    (options : SchemaGenerationOptions) (h : getAllMetadata store c = []) :
    createEntitySchemas store c options = .error (noMetadataMsg (className c)) := by
  unfold createEntitySchemas
  simp [variant_err store c h]

theorem createEntitySchemas_ok (store : MetadataStore) (c : ProtoObj)
    (options : SchemaGenerationOptions) (h : getAllMetadata store c ≠ []) :
    createEntitySchemas store c options
      = .ok ⟨buildShape store c .full options [],
             buildShape store c .create options (defaultCreateOmit ++ options.omitFromCreate),
             shapeRequireKeys
               (shapeAllOptional (buildShape store c .update options options.omitFromUpdate))
               ["id"],
             shapeAllOptional (buildShape store c .patch options []),
             shapeAllOptional (buildShape store c .query options [])⟩ := by
  unfold createEntitySchemas
  simp [variant_ok store c h]

/-! ## Lemmas about shape construction -/

theorem setShapeKey_not_mem (shape : ZodShape) (k : String) (v : ZodSchema)
    (h : ∀ e ∈ shape, e.1 ≠ k) : setShapeKey shape k v = shape ++ [(k, v)] := by
  unfold setShapeKey
  have : ¬ shape.any (fun e => e.1 == k) = true := by
    intro hc
    obtain ⟨e, he, hpe⟩ := List.any_eq_true.mp hc
    exact h e he (by simpa using hpe)
  rw [if_neg this]

theorem foldl_setShapeKey (f : ZodValidationMetadata → ZodSchema)
    (l : List ZodValidationMetadata) :
    ∀ (sh0 : ZodShape), ((l.map (fun m => m.propertyKey)).Nodup) →
      (∀ m ∈ l, ∀ e ∈ sh0, e.1 ≠ m.propertyKey) →
      l.foldl (fun sh m => setShapeKey sh m.propertyKey (f m)) sh0
        = sh0 ++ l.map (fun m => (m.propertyKey, f m)) := by
  induction l with
  | nil => intro sh0 _ _; simp
  | cons m rest ih =>
    intro sh0 hnd hdis
    simp only [List.foldl_cons]
    rw [setShapeKey_not_mem sh0 m.propertyKey (f m)
      (fun e he => hdis m (List.mem_cons_self m rest) e he)]
    rw [List.map_cons, List.nodup_cons] at hnd
    rw [ih (sh0 ++ [(m.propertyKey, f m)]) hnd.2 ?_]
    · simp
    · intro m' hm' e he
      rcases List.mem_append.mp he with h1 | h2
      · exact hdis m' (List.mem_cons_of_mem m hm') e h1
      · rcases List.mem_singleton.mp h2 with rfl
        intro hcontra
        have hk : m.propertyKey = m'.propertyKey := hcontra
        apply hnd.1
        rw [hk]
        exact List.mem_map.mpr ⟨m', hm', rfl⟩

theorem filter_keys_nodup (l : List ZodValidationMetadata) (v : SchemaVariant)
    (omitFields : List String)
    (h : (l.map (fun m => m.propertyKey)).Nodup) :
    ((filterMetadataForSchema l v omitFields).map (fun m => m.propertyKey)).Nodup := by
  unfold filterMetadataForSchema
  exact List.Nodup.sublist (List.Sublist.map _ (List.filter_sublist l)) h

theorem buildShape_eq_map (store : MetadataStore) (c : ProtoObj) (v : SchemaVariant)
    (options : SchemaGenerationOptions) (omitFields : List String) :
    buildShape store c v options omitFields
      = ⟨(filterMetadataForSchema (getAllMetadata store c) v omitFields).map
          (fun m => (m.propertyKey, finalizeField options m))⟩ := by
  unfold buildShape
  congr 1
  rw [foldl_setShapeKey (finalizeField options) _ []
    (filter_keys_nodup _ v omitFields (getAllMetadata_keys_nodup store c))
    (fun m _ e he => absurd he (List.not_mem_nil e))]
  simp

/-! ## Lemmas about the heap-level store -/

theorem getD_append_lt {α : Type} (l l' : List α) (d : α) (n : Nat) (h : n < l.length) :
    (l ++ l').getD n d = l.getD n d := by
  simp [List.getD, List.getElem?_append_left h]

theorem getD_concat_length {α : Type} (l : List α) (x d : α) :
    (l ++ [x]).getD l.length d = x := by
  induction l with
  | nil => rfl
  | cons a t _ => simp

theorem lookupEntry_setEntry_self (entries : List (Nat × Nat)) (cid addr : Nat) :
    lookupEntry (setEntry entries cid addr) cid = some addr := by
  unfold setEntry lookupEntry
  by_cases hany : entries.any (fun e => e.1 == cid) = true
  · rw [if_pos hany, find?_map_update_self cid addr entries hany]
  · rw [if_neg hany, find?_append_match]
    have hnone : entries.find? (fun e => e.1 == cid) = none := by
      rw [List.find?_eq_none]
      intro x hx hpx
      exact hany (List.any_eq_true.mpr ⟨x, hx, hpx⟩)
    simp [hnone, List.find?]

theorem lookupEntry_setEntry_ne (entries : List (Nat × Nat)) (cid addr cid' : Nat)
    (h : cid' ≠ cid) :
    lookupEntry (setEntry entries cid addr) cid' = lookupEntry entries cid' := by
  unfold setEntry lookupEntry
  have hcc : (cid == cid') = false := by
    simp only [beq_eq_false_iff_ne, ne_eq]
    exact fun c => h c.symm
  by_cases hany : entries.any (fun e => e.1 == cid) = true
  · rw [if_pos hany, find?_map_update_ne cid addr cid' h entries]
  · rw [if_neg hany, find?_append_match]
    cases hf : entries.find? (fun e => e.1 == cid') with
    | some r => simp
    | none => simp [List.find?, hcc]

theorem addMetadataRef_eq_some (st : HeapState) (cid : Nat) (item : ZodValidationMetadata)
    (a : Nat) (h : lookupEntry st.entries cid = some a) :
    addMetadataRef st cid item
      = ⟨st.heap ++ [readCell st a ++ [item]], setEntry st.entries cid st.heap.length⟩ := by
  simp [addMetadataRef, getMetadataRef, h, allocCell, setMetadataRef]

theorem addMetadataRef_eq_none (st : HeapState) (cid : Nat) (item : ZodValidationMetadata)
    (h : lookupEntry st.entries cid = none) :
    addMetadataRef st cid item
      = ⟨st.heap ++ [[]] ++ [[item]], setEntry st.entries cid (st.heap.length + 1)⟩ := by
  simp only [addMetadataRef, getMetadataRef, h, allocCell, setMetadataRef, readCell]
  rw [getD_concat_length]
  simp

theorem addMetadataRef_self_spec (st : HeapState) (cid : Nat) (item : ZodValidationMetadata) :
    lookupEntry (addMetadataRef st cid item).entries cid
        = some ((addMetadataRef st cid item).heap.length - 1)
      ∧ st.heap.length < (addMetadataRef st cid item).heap.length := by
  cases hl : lookupEntry st.entries cid with
  | some a =>
    rw [addMetadataRef_eq_some st cid item a hl]
    refine ⟨?_, by simp⟩
    simp only [List.length_append, List.length_cons, List.length_nil]
    rw [lookupEntry_setEntry_self]
    simp
  | none =>
    rw [addMetadataRef_eq_none st cid item hl]
    refine ⟨?_, by simp⟩
    simp only [List.length_append, List.length_cons, List.length_nil]
    rw [lookupEntry_setEntry_self]
    simp

theorem addMetadataRef_entries_ne (st : HeapState) (cid : Nat)
    (item : ZodValidationMetadata) (cid' : Nat) (h : cid' ≠ cid) :
    lookupEntry (addMetadataRef st cid item).entries cid' = lookupEntry st.entries cid' := by
  cases hl : lookupEntry st.entries cid with
  | some a =>
    rw [addMetadataRef_eq_some st cid item a hl]
    exact lookupEntry_setEntry_ne st.entries cid _ cid' h
  | none =>
    rw [addMetadataRef_eq_none st cid item hl]
    exact lookupEntry_setEntry_ne st.entries cid _ cid' h

theorem addMetadataRef_heap_frame (st : HeapState) (cid : Nat)
    (item : ZodValidationMetadata) (a : Nat) (h : a < st.heap.length) :
    readCell (addMetadataRef st cid item) a = readCell st a := by
  cases hl : lookupEntry st.entries cid with
  | some a0 =>
    rw [addMetadataRef_eq_some st cid item a0 hl]
    unfold readCell
    exact getD_append_lt st.heap _ [] a h
  | none =>
    rw [addMetadataRef_eq_none st cid item hl]
    unfold readCell
    rw [List.append_assoc]
    exact getD_append_lt st.heap _ [] a h

theorem ok_of_toOption {ε α : Type} (e : Except ε α) (a : α)
    (h : e.toOption = some a) : e = .ok a := by
  cases e with
  | ok x => simp only [Except.toOption, Option.some.injEq] at h; rw [h]
  | error _ => simp [Except.toOption] at h

theorem flatten_eq_nil_of_all {α β : Type} (f : α → List β) (ps : List α)
    (h : ∀ p ∈ ps, f p = []) : (ps.map f).flatten = [] := by
  induction ps with
  | nil => rfl
  | cons p t ih =>
    simp only [List.map_cons, List.flatten_cons]
    rw [h p (List.mem_cons_self p t),
      ih (fun q hq => h q (List.mem_cons_of_mem p hq))]
    rfl

theorem chainConcat_eq_nil (store : MetadataStore) (c : ProtoObj)
    (h : (visitChain c).all (fun p => (ownMeta store p).isEmpty) = true) :
    chainConcat store c = [] := by
  unfold chainConcat
  apply flatten_eq_nil_of_all
  intro p hp
  have hall := List.all_eq_true.mp h p hp
  cases hq : ownMeta store p with
  | nil => rfl
  | cons a t => rw [hq] at hall; simp [List.isEmpty] at hall

/-! ## The claims -/

/-- Claim C8: a field is excluded from a derived variant iff its per-field
skip set contains the variant name or its field name is in the global
omission list, with the same policy for every variant; consequently a field
marked `skip: ['create','update','patch']` passes the filter exactly for the
`full` and `query` variants. -/
theorem claim8_variant_filter_policy (metadata : List ZodValidationMetadata)
    (schemaVariant : SchemaVariant) (globalOmitFields : List String)
    (m : ZodValidationMetadata) (sch : ZodSchema) (v : SchemaVariant) :
    (m ∈ filterMetadataForSchema metadata schemaVariant globalOmitFields
      ↔ m ∈ metadata ∧ schemaVariant ∉ m.skip.getD [] ∧ m.propertyKey ∉ globalOmitFields)
    ∧ filterMetadataForSchema [metaOf "f" sch (some [.create, .update, .patch])] v []
        = (if v = .full ∨ v = .query
           then [metaOf "f" sch (some [.create, .update, .patch])] else []) := by
  constructor
  · unfold filterMetadataForSchema
    rw [List.mem_filter]
    by_cases hskip : schemaVariant ∈ m.skip.getD []
    · simp [hskip]
    · simp [hskip]
  · cases v <;> simp [filterMetadataForSchema, metaOf]

/-- Claim C6: a second registration for the same field on the same type
fails with the duplicate-registration error naming the field and the type,
and the store visible after the failed call is the unchanged input store
(so the first registration and all other fields and types are intact). -/
theorem claim6_duplicate_registration (store : MetadataStore) (cid : Nat)
    (entityName propertyKey : String) (schema : ZodSchema)
    (sk : Option (List SchemaVariant))
    (h : hasPropertyMetadata store cid propertyKey = true) :
    zodPropertyDecorate store cid entityName propertyKey schema sk
      = .error (duplicateMsg propertyKey entityName)
    ∧ storeAfter (zodPropertyDecorate store cid entityName propertyKey schema sk) store
      = store := by
  constructor <;> simp [zodPropertyDecorate, h, storeAfter]

/-- Witness for C6: re-registering `id` on `TestEntityWithSkip` fails. -/
theorem claim6_duplicate_registration_witness :
    hasPropertyMetadata testStore 0 "id" = true
    ∧ zodPropertyDecorate testStore 0 "TestEntityWithSkip" "id" (.base .zuuid) none
        = .error (duplicateMsg "id" "TestEntityWithSkip") :=
  ⟨by decide,
   (claim6_duplicate_registration testStore 0 "TestEntityWithSkip" "id"
     (.base .zuuid) none (by decide)).1⟩

/-- Claim C7: when no rules are registered anywhere in a type's prototype
chain, every schema-generation call for that type fails with the
configuration error identifying the type, rather than returning an empty
schema. -/
theorem claim7_no_rules_config_error (store : MetadataStore) (c : ProtoObj)
    (options : SchemaGenerationOptions) (v : SchemaVariant) (omitFields : List String)
    (h : (visitChain c).all (fun p => (ownMeta store p).isEmpty) = true) :
    createEntitySchemas store c options = .error (noMetadataMsg (className c))
    ∧ createZodFromEntityForVariant store c v options omitFields
        = .error (noMetadataMsg (className c)) := by
  have hall : getAllMetadata store c = [] := by
    rw [getAllMetadata_eq_dedup, chainConcat_eq_nil store c h]
    rfl
  exact ⟨createEntitySchemas_err store c options hall,
         variant_err store c hall v options omitFields⟩

/-- Witness for C7: a class with no registrations at all. -/
theorem claim7_no_rules_config_error_witness :
    (visitChain (ProtoObj.userClass 7 "EmptyEntity" .functionPrototype)).all
        (fun p => (ownMeta ([] : MetadataStore) p).isEmpty) = true
    ∧ createEntitySchemas ([] : MetadataStore)
        (ProtoObj.userClass 7 "EmptyEntity" .functionPrototype) noOpts
      = .error (noMetadataMsg
          (className (ProtoObj.userClass 7 "EmptyEntity" .functionPrototype))) :=
  ⟨by decide,
   (claim7_no_rules_config_error ([] : MetadataStore)
     (ProtoObj.userClass 7 "EmptyEntity" .functionPrototype) noOpts .create []
     (by decide)).1⟩

/-- Counterexample to claim C5 as stated: `getMetadata` returns the live
backing array, so a caller push on the returned array changes what the
store subsequently reports for the type (here from the single `title` rule
to `title` plus the pushed junk rule). -/
theorem claim5_counterexample :
    readCell c5Stored (getMetadataRef c5Stored 0).1
        = [metaOf "title" (.base (.zstring none none)) none]
    ∧ readCell c5Mutated (getMetadataRef c5Mutated 0).1
        = [metaOf "title" (.base (.zstring none none)) none,
           metaOf "junk" (.base .znumber) none] := by decide

/-- Claim C5 (amended): `getMetadata` returns the live backing list when an
entry exists — not a copy — and a fresh empty list otherwise; `addMetadata`
is copy-on-write: it allocates a new list (stored at a fresh address past
every existing cell) and never mutates any previously existing list. -/
theorem claim5_amended_copy_on_write (st : HeapState) (cid : Nat)
    (item : ZodValidationMetadata) (a : Nat) :
    (a < st.heap.length → readCell (addMetadataRef st cid item) a = readCell st a)
    ∧ (lookupEntry st.entries cid = some a → getMetadataRef st cid = (a, st))
    ∧ (lookupEntry st.entries cid = none →
        getMetadataRef st cid = (st.heap.length, ⟨st.heap ++ [[]], st.entries⟩))
    ∧ lookupEntry (addMetadataRef st cid item).entries cid
        = some ((addMetadataRef st cid item).heap.length - 1)
    ∧ st.heap.length < (addMetadataRef st cid item).heap.length := by
  refine ⟨fun h => addMetadataRef_heap_frame st cid item a h,
          fun h => by simp [getMetadataRef, h],
          fun h => by simp [getMetadataRef, h, allocCell],
          (addMetadataRef_self_spec st cid item).1,
          (addMetadataRef_self_spec st cid item).2⟩

/-- Witness for the amended C5 at the one-entry heap. -/
theorem claim5_amended_copy_on_write_witness :
    1 < c5Stored.heap.length
    ∧ lookupEntry c5Stored.entries 0 = some 1
    ∧ readCell (addMetadataRef c5Stored 0 (metaOf "junk" (.base .znumber) none)) 1
        = readCell c5Stored 1
    ∧ getMetadataRef c5Stored 0 = (1, c5Stored) :=
  ⟨by decide, by decide,
   (claim5_amended_copy_on_write c5Stored 0 (metaOf "junk" (.base .znumber) none) 1).1
     (by decide),
   (claim5_amended_copy_on_write c5Stored 0 (metaOf "junk" (.base .znumber) none) 1).2.1
     (by decide)⟩

/-- Claim C10 (implicit): with at least one rule somewhere in the chain,
deriving a variant succeeds even when filtering excludes every field — the
emptiness check runs on the unfiltered merged rule set — and the result is
the empty object validator, which accepts the empty object; the five-variant
generation also succeeds. -/
theorem claim10_all_fields_filtered (store : MetadataStore) (c : ProtoObj)
    (v : SchemaVariant) (options : SchemaGenerationOptions) (omitFields : List String)
    (h1 : getAllMetadata store c ≠ [])
    (h2 : filterMetadataForSchema (getAllMetadata store c) v omitFields = []) :
    createZodFromEntityForVariant store c v options omitFields = .ok ⟨[]⟩
    ∧ zparseObject ⟨[]⟩ [] = true
    ∧ (createEntitySchemas store c options).toOption.isSome = true := by
  refine ⟨?_, rfl, ?_⟩
  · rw [variant_ok store c h1 v options omitFields]
    unfold buildShape
    rw [h2]
    rfl
  · rw [createEntitySchemas_ok store c options h1]
    rfl

/-- Witness for C10: skipping or omitting every field of
`TestEntityWithSkip` in the `create` variant. -/
theorem claim10_all_fields_filtered_witness :
    getAllMetadata testStore testClass ≠ []
    ∧ filterMetadataForSchema (getAllMetadata testStore testClass) .create
        ["title", "content", "secretToken"] = []
    ∧ (createZodFromEntityForVariant testStore testClass .create noOpts
          ["title", "content", "secretToken"] = .ok ⟨[]⟩
       ∧ zparseObject ⟨[]⟩ [] = true
       ∧ (createEntitySchemas testStore testClass noOpts).toOption.isSome = true) :=
  ⟨by decide, by decide,
   claim10_all_fields_filtered testStore testClass .create noOpts
     ["title", "content", "secretToken"] (by decide) (by decide)⟩

/-- Claim C2: for a type `C` inheriting from `D`, a field `y` declared only
on `D` resolves to `D`'s rule; a field `y` declared on `C` resolves to
`C`'s rule regardless of `D`; the merged rule set has at most one rule per
field name; the type's own rules precede inherited ones; and the part of
the walk past user-defined classes (the universal roots) contributes no
rules. -/
theorem claim2_inheritance_override_wins (store : MetadataStore) (cid : Nat)
    (nm : String) (par : ProtoObj) (y : String) :
    (findByKey y (getMetadataOf store cid) = none →
      findByKey y (getAllMetadata store (.userClass cid nm par))
        = findByKey y (getAllMetadata store par))
    ∧ (∀ r, findByKey y (getMetadataOf store cid) = some r →
      findByKey y (getAllMetadata store (.userClass cid nm par)) = some r)
    ∧ ((getAllMetadata store (.userClass cid nm par)).map (fun m => m.propertyKey)).Nodup
    ∧ getAllMetadata store (.userClass cid nm par)
        = dedupKeys [] (getMetadataOf store cid)
          ++ dedupKeys ((getMetadataOf store cid).map (fun m => m.propertyKey))
              (chainConcat store par)
    ∧ getAllMetadata store .functionPrototype = [] := by
  refine ⟨?_, ?_, getAllMetadata_keys_nodup store _, ?_, rfl⟩
  · intro h
    rw [getAllMetadata_eq_dedup, findByKey_dedupKeys, if_neg (List.not_mem_nil y),
      chainConcat_userClass, findByKey_append, h,
      getAllMetadata_eq_dedup store par, findByKey_dedupKeys,
      if_neg (List.not_mem_nil y)]
  · intro r h
    rw [getAllMetadata_eq_dedup, findByKey_dedupKeys, if_neg (List.not_mem_nil y),
      chainConcat_userClass, findByKey_append, h]
  · rw [getAllMetadata_eq_dedup, chainConcat_userClass, dedupKeys_append]
    simp

/-- Witness for C2 at the child/parent pair: `content` is declared only on
the parent and resolves identically for the child. -/
theorem claim2_inheritance_override_wins_witness :
    findByKey "content" (getMetadataOf childStore 1) = none
    ∧ findByKey "content" (getAllMetadata childStore childClass)
        = findByKey "content" (getAllMetadata childStore testClass) :=
  ⟨by decide,
   (claim2_inheritance_override_wins childStore 1 "ChildEntity" testClass "content").1
     (by decide)⟩

/-- Claim C1: for unrelated classes `A` and `B` both registering a field
`x`, registering on one never alters the rule list stored for the other
(value frame), never alters the other's resolved merged rule set, each
type's merged set resolves `x` to its own registered rule, and at the heap
level the two types' stored arrays sit at distinct addresses (no
aliasing). -/
theorem claim1_cross_type_isolation
    (store : MetadataStore) (aid : Nat) (na : String) (pA : ProtoObj)
    (bid : Nat) (nb : String) (pB : ProtoObj)
    (rA rB : ZodValidationMetadata) (x : String) (hs : HeapState)
    (hab : aid ≠ bid)
    (hBA : bid ∉ chainIds (ProtoObj.userClass aid na pA))
    (hAB : aid ∉ chainIds (ProtoObj.userClass bid nb pB))
    (hxA : (chainConcat store (ProtoObj.userClass aid na pA)).all
        (fun m => !(m.propertyKey == x)) = true)
    (hxB : (chainConcat store (ProtoObj.userClass bid nb pB)).all
        (fun m => !(m.propertyKey == x)) = true)
    (hrA : rA.propertyKey = x) (hrB : rB.propertyKey = x) :
    getMetadataOf (addMetadataOf store aid rA) bid = getMetadataOf store bid
    ∧ getAllMetadata (addMetadataOf (addMetadataOf store aid rA) bid rB)
        (ProtoObj.userClass aid na pA)
      = getAllMetadata (addMetadataOf store aid rA) (ProtoObj.userClass aid na pA)
    ∧ findByKey x (getAllMetadata (addMetadataOf (addMetadataOf store aid rA) bid rB)
        (ProtoObj.userClass aid na pA)) = some rA
    ∧ findByKey x (getAllMetadata (addMetadataOf (addMetadataOf store aid rA) bid rB)
        (ProtoObj.userClass bid nb pB)) = some rB
    ∧ lookupEntry (addMetadataRef (addMetadataRef hs aid rA) bid rB).entries aid
        ≠ lookupEntry (addMetadataRef (addMetadataRef hs aid rA) bid rB).entries bid := by
  have hb_ne_a : bid ≠ aid := fun e => hab e.symm
  have hxA' : ∀ m ∈ chainConcat store (ProtoObj.userClass aid na pA),
      m.propertyKey ≠ x := by
    intro m hm
    have := List.all_eq_true.mp hxA m hm
    simpa using this
  have hxB' : ∀ m ∈ chainConcat store (ProtoObj.userClass bid nb pB),
      m.propertyKey ≠ x := by
    intro m hm
    have := List.all_eq_true.mp hxB m hm
    simpa using this
  have hfr : getMetadataOf (addMetadataOf store aid rA) bid = getMetadataOf store bid :=
    getMetadataOf_add_ne store aid rA bid hb_ne_a
  have hfix : getAllMetadata (addMetadataOf (addMetadataOf store aid rA) bid rB)
      (ProtoObj.userClass aid na pA)
      = getAllMetadata (addMetadataOf store aid rA) (ProtoObj.userClass aid na pA) := by
    rw [getAllMetadata_eq_dedup, getAllMetadata_eq_dedup,
      chainConcat_add_notin (addMetadataOf store aid rA) bid rB _ hBA]
  refine ⟨hfr, hfix, ?_, ?_, ?_⟩
  · -- A's merged x-rule is rA
    rw [hfix, getAllMetadata_eq_dedup, findByKey_dedupKeys, if_neg (List.not_mem_nil x),
      chainConcat_userClass, getMetadataOf_add_self]
    have hownA : findByKey x (getMetadataOf store aid) = none := by
      apply findByKey_eq_none
      intro m hm
      exact hxA' m (by rw [chainConcat_userClass]; exact List.mem_append.mpr (Or.inl hm))
    have hinner : findByKey x (getMetadataOf store aid ++ [rA]) = some rA := by
      rw [findByKey_append, hownA]
      simp [findByKey, List.find?, hrA]
    rw [findByKey_append, hinner]
  · -- B's merged x-rule is rB
    have hownB2 : getMetadataOf (addMetadataOf (addMetadataOf store aid rA) bid rB) bid
        = getMetadataOf store bid ++ [rB] := by
      rw [getMetadataOf_add_self, hfr]
    rw [getAllMetadata_eq_dedup, findByKey_dedupKeys, if_neg (List.not_mem_nil x),
      chainConcat_userClass, hownB2]
    have hownB : findByKey x (getMetadataOf store bid) = none := by
      apply findByKey_eq_none
      intro m hm
      exact hxB' m (by rw [chainConcat_userClass]; exact List.mem_append.mpr (Or.inl hm))
    have hinner : findByKey x (getMetadataOf store bid ++ [rB]) = some rB := by
      rw [findByKey_append, hownB]
      simp [findByKey, List.find?, hrB]
    rw [findByKey_append, hinner]
  · -- distinct heap addresses
    obtain ⟨e1, l1⟩ := addMetadataRef_self_spec hs aid rA
    obtain ⟨e2, l2⟩ := addMetadataRef_self_spec (addMetadataRef hs aid rA) bid rB
    have ea : lookupEntry (addMetadataRef (addMetadataRef hs aid rA) bid rB).entries aid
        = some ((addMetadataRef hs aid rA).heap.length - 1) := by
      rw [addMetadataRef_entries_ne _ bid rB aid hab, e1]
    rw [ea, e2]
    intro hcontra
    have heq := Option.some.inj hcontra
    omega

/-- Witness for C1: the two unrelated classes `A` (identity 0) and `B`
(identity 1) from an empty store and heap. -/
theorem claim1_cross_type_isolation_witness :
    (chainConcat ([] : MetadataStore) classA).all (fun m => !(m.propertyKey == "x")) = true
    ∧ (chainConcat ([] : MetadataStore) classB).all (fun m => !(m.propertyKey == "x")) = true
    ∧ (getMetadataOf (addMetadataOf ([] : MetadataStore) 0 ruleAx) 1
        = getMetadataOf ([] : MetadataStore) 1
      ∧ getAllMetadata (addMetadataOf (addMetadataOf ([] : MetadataStore) 0 ruleAx) 1 ruleBx)
          classA
        = getAllMetadata (addMetadataOf ([] : MetadataStore) 0 ruleAx) classA
      ∧ findByKey "x" (getAllMetadata
          (addMetadataOf (addMetadataOf ([] : MetadataStore) 0 ruleAx) 1 ruleBx) classA)
        = some ruleAx
      ∧ findByKey "x" (getAllMetadata
          (addMetadataOf (addMetadataOf ([] : MetadataStore) 0 ruleAx) 1 ruleBx) classB)
        = some ruleBx
      ∧ lookupEntry (addMetadataRef (addMetadataRef emptyHeap 0 ruleAx) 1 ruleBx).entries 0
          ≠ lookupEntry (addMetadataRef (addMetadataRef emptyHeap 0 ruleAx) 1 ruleBx).entries 1) :=
  ⟨by decide, by decide,
   claim1_cross_type_isolation [] 0 "A" .functionPrototype 1 "B" .functionPrototype
     ruleAx ruleBx "x" emptyHeap (by decide) (by decide) (by decide) (by decide)
     (by decide) (by decide) (by decide)⟩

/-- Counterexample to claim C3 as stated: for `TestEntityWithSkip`, whose
`id` field carries `skip: ['create','update']`, generation succeeds and the
derived `update` variant contains no `id` field at all — so the update
variant does not contain the identifier as a required field for every
record type. -/
theorem claim3_counterexample :
    (createEntitySchemas testStore testClass noOpts).toOption = some testSchemas
    ∧ testSchemas.update.shape.find? (fun e => e.1 == "id") = none := by decide

/-- Claim C3 (amended): for every record type with at least one merged rule
and every options value, the `update` variant's shape is exactly the
update-filtered merged rules with every field wrapped optional, except that
a surviving `id` field has all its optional wrappers stripped (so it is
required); a field wrapped optional accepts a missing value.  When `id` is
excluded by skip or omission the update variant simply lacks it. -/
theorem claim3_amended_update_shape (store : MetadataStore) (c : ProtoObj)
    (options : SchemaGenerationOptions) (s : ZodSchema)
    (h : getAllMetadata store c ≠ []) :
    Except.map (fun es => es.update.shape) (createEntitySchemas store c options)
      = .ok (expectedUpdateShape store c options)
    ∧ zparse (ZodSchema.optional s) JsValue.vundefined = true := by
  refine ⟨?_, rfl⟩
  rw [createEntitySchemas_ok store c options h]
  simp only [Except.map]
  congr 1
  rw [buildShape_eq_map]
  unfold shapeAllOptional shapeRequireKeys expectedUpdateShape
  simp only [List.map_map]
  apply List.map_congr_left
  intro m _
  simp only [Function.comp]
  by_cases hid : m.propertyKey = "id"
  · simp [hid, stripOptional]
  · simp [hid]

/-- Witness for the amended C3 at `TestEntityWithSkip`. -/
theorem claim3_amended_update_shape_witness :
    getAllMetadata testStore testClass ≠ []
    ∧ (Except.map (fun es => es.update.shape) (createEntitySchemas testStore testClass noOpts)
        = .ok (expectedUpdateShape testStore testClass noOpts)
      ∧ zparse (ZodSchema.optional (.base .zuuid)) JsValue.vundefined = true) :=
  ⟨by decide, claim3_amended_update_shape testStore testClass noOpts (.base .zuuid) (by decide)⟩

/-- Counterexample to claim C4 as stated: for `TestEntityWithSkip`, whose
`id` is skipped for `update`, generating the update variant does not fail —
and parsing an object without `id` through the update variant succeeds
(while an object carrying only a valid uuid `id` would also succeed, the
very input the claim says must fail does not). -/
theorem claim4_counterexample :
    (createEntitySchemas testStore testClass noOpts).toOption = some testSchemas
    ∧ zparseObject testSchemas.update [("title", JsValue.vstr "x")] = true
    ∧ zparseObject testSchemas.update
        [("id", JsValue.vstr "f47ac10b-58cc-4372-a567-0e02b2c3d479")] = true := by decide

/-- Claim C4 (amended): when the identifier field is excluded from the
update variant by a per-field skip (or omission), generation succeeds, the
update variant simply lacks the `id` key (zod v3 `.required` silently
ignores mask keys absent from the shape), and parsing an object without
`id` succeeds since every remaining field is optional. -/
theorem claim4_amended_update_without_id (store : MetadataStore) (c : ProtoObj)
    (options : SchemaGenerationOptions)
    (h1 : getAllMetadata store c ≠ [])
    (h2 : (filterMetadataForSchema (getAllMetadata store c) .update options.omitFromUpdate).all
        (fun m => !(m.propertyKey == "id")) = true) :
    Except.map
        (fun es => (es.update.shape.any (fun e => e.1 == "id"), zparseObject es.update []))
        (createEntitySchemas store c options)
      = .ok (false, true) := by
  have h2' : ∀ m ∈ filterMetadataForSchema (getAllMetadata store c) .update
      options.omitFromUpdate, m.propertyKey ≠ "id" := by
    intro m hm
    have := List.all_eq_true.mp h2 m hm
    simpa using this
  rw [createEntitySchemas_ok store c options h1]
  simp only [Except.map]
  have hshape : (shapeRequireKeys
      (shapeAllOptional (buildShape store c .update options options.omitFromUpdate))
      ["id"]).shape
      = (filterMetadataForSchema (getAllMetadata store c) .update options.omitFromUpdate).map
          (fun m => (m.propertyKey, ZodSchema.optional (finalizeField options m))) := by
    rw [buildShape_eq_map]
    unfold shapeAllOptional shapeRequireKeys
    simp only [List.map_map]
    apply List.map_congr_left
    intro m hm
    simp only [Function.comp]
    simp [h2' m hm]
  simp only [zparseObject, zparseShape, hshape]
  have hany : ((filterMetadataForSchema (getAllMetadata store c) .update
      options.omitFromUpdate).map
        (fun m => (m.propertyKey, ZodSchema.optional (finalizeField options m)))).any
        (fun e => e.1 == "id") = false := by
    rw [List.any_eq_false]
    intro e he
    obtain ⟨m, hm, rfl⟩ := List.mem_map.mp he
    simpa using h2' m hm
  have hall : ((filterMetadataForSchema (getAllMetadata store c) .update
      options.omitFromUpdate).map
        (fun m => (m.propertyKey, ZodSchema.optional (finalizeField options m)))).all
        (fun e => zparse e.2 (objGet [] e.1)) = true := by
    rw [List.all_eq_true]
    intro e he
    obtain ⟨m, _, rfl⟩ := List.mem_map.mp he
    rfl
  rw [hany, hall]

/-- Witness for the amended C4 at `TestEntityWithSkip`. -/
theorem claim4_amended_update_without_id_witness :
    getAllMetadata testStore testClass ≠ []
    ∧ (filterMetadataForSchema (getAllMetadata testStore testClass) .update
        noOpts.omitFromUpdate).all (fun m => !(m.propertyKey == "id")) = true
    ∧ Except.map
        (fun es => (es.update.shape.any (fun e => e.1 == "id"), zparseObject es.update []))
        (createEntitySchemas testStore testClass noOpts)
      = .ok (false, true) :=
  ⟨by decide, by decide,
   claim4_amended_update_without_id testStore testClass noOpts (by decide) (by decide)⟩

/-- Claim C9: the `create` variant is always derived with the global
omission list `{id, createdAt, updatedAt, deletedAt} ∪ omitFromCreate`, so
a generated `create` schema never contains any of those four default
fields nor any caller-omitted field. -/
theorem claim9_create_omits_defaults (store : MetadataStore) (c : ProtoObj)
    (options : SchemaGenerationOptions) (es : EntitySchemas) :
    createZodFromEntityForVariant store c .create options
        (defaultCreateOmit ++ options.omitFromCreate)
      = Except.map (fun e => e.create) (createEntitySchemas store c options)
    ∧ (createEntitySchemas store c options = .ok es →
        es.create.shape.all
          (fun e => !decide (e.1 ∈ defaultCreateOmit)
            && !decide (e.1 ∈ options.omitFromCreate)) = true) := by
  constructor
  · by_cases hAll : getAllMetadata store c = []
    · rw [createEntitySchemas_err store c options hAll,
        variant_err store c hAll .create options (defaultCreateOmit ++ options.omitFromCreate)]
      rfl
    · rw [createEntitySchemas_ok store c options hAll,
        variant_ok store c hAll .create options (defaultCreateOmit ++ options.omitFromCreate)]
      rfl
  · intro heq
    by_cases hAll : getAllMetadata store c = []
    · rw [createEntitySchemas_err store c options hAll] at heq
      exact Except.noConfusion heq
    · rw [createEntitySchemas_ok store c options hAll] at heq
      injection heq with h'
      rw [← h']
      show (buildShape store c .create options
        (defaultCreateOmit ++ options.omitFromCreate)).shape.all _ = true
      rw [buildShape_eq_map]
      rw [List.all_eq_true]
      intro e he
      obtain ⟨m, hm, rfl⟩ := List.mem_map.mp he
      unfold filterMetadataForSchema at hm
      obtain ⟨_, hpred⟩ := List.mem_filter.mp hm
      by_cases hskip : SchemaVariant.create ∈ m.skip.getD []
      · simp [hskip] at hpred
      · simp only [hskip, if_false, Bool.not_eq_true'] at hpred
        rw [decide_eq_false_iff_not] at hpred
        rw [List.mem_append] at hpred
        push_neg at hpred
        simp [hpred.1, hpred.2]

/-- Witness for C9 at `TestEntityWithSkip`. -/
theorem claim9_create_omits_defaults_witness :
    (createEntitySchemas testStore testClass noOpts).toOption = some testSchemas
    ∧ testSchemas.create.shape.all
        (fun e => !decide (e.1 ∈ defaultCreateOmit)
          && !decide (e.1 ∈ noOpts.omitFromCreate)) = true :=
  ⟨by decide,
   (claim9_create_omits_defaults testStore testClass noOpts testSchemas).2
     (ok_of_toOption _ _ (by decide))⟩

end TypeormZod
